import Mathlib

/-!
Verification of the `validate` package (github.com/dealancer/validate):
a shallow embedding of `src/validate.go`, `src/validators.go` (current
section) and `src/errors.go` in Lean 4, together with theorems settling
the specification claims.

Strings are modelled as `List Char` (Go indexes bytes; every expression
the claims touch is ASCII, where bytes and chars coincide).
-/

abbrev Str := List Char

/-- `strings.Split` on a one-character separator (Go semantics:
splitting the empty string yields one empty piece). -/
def splitOnChar (sep : Char) : Str → List Str
  | [] => [[]]
  | c :: rest =>
    match splitOnChar sep rest with
    | [] => [[c]]
    | p :: ps => if c = sep then [] :: p :: ps else (c :: p) :: ps

/-- Character class of Go's `regexp` `\s`, i.e. `[\t\n\f\r ]`. -/
def isSpaceRE (c : Char) : Bool :=
  c = ' ' || c = '\t' || c = '\n' || c = '\x0c' || c = '\r'

/-- ASCII whitespace accepted by Go's `unicode.IsSpace` (plus the two
Latin-1 spaces it also accepts). -/
def isSpaceGo (c : Char) : Bool :=
  c = ' ' || c = '\t' || c = '\n' || c = '\x0b' || c = '\x0c' || c = '\r' ||
  c = '\u0085' || c = ' '

/-- Character class of `[[:alnum:]_]` (ASCII letters, digits, underscore). -/
def isWordChar (c : Char) : Bool :=
  c.isAlphanum || c = '_'

/-- `FindString` of the regexp `[[:alnum:]_]+`: the first maximal run of
word characters, or the empty string when there is none. -/
def findFirstWord : Str → Str
  | [] => []
  | c :: rest =>
    if isWordChar c then c :: rest.takeWhile isWordChar
    else findFirstWord rest

/-- `FindString` of the regexp `[^=\s]+[^=]*[^=\s]+|[^=\s]+` applied to a
string containing no `=` (the only way `parseValidators` uses it): it
matches from the first non-space character to the last one, i.e. it
trims `\s` from both ends. -/
def trimRE (s : Str) : Str :=
  ((s.dropWhile isSpaceRE).reverse.dropWhile isSpaceRE).reverse

/-- Go's `strings.TrimSpace`. -/
def trimGo (s : Str) : Str :=
  ((s.dropWhile isSpaceGo).reverse.dropWhile isSpaceGo).reverse

/-- Numeric value of a non-empty all-digit string, `none` otherwise. -/
def parseDigits (s : Str) : Option Nat :=
  if s = [] then none
  else if s.all (·.isDigit) then
    some (s.foldl (fun acc c => acc * 10 + (c.toNat - '0'.toNat)) 0)
  else none

/-- `strconv.ParseInt(s, 10, 64)` as an `Option`: optional sign, decimal
digits, 64-bit range check.  Any parse or range failure is `none`
(the callers in `validators.go` only test `err == nil`). -/
def parseInt (s : Str) : Option Int :=
  match s with
  | '+' :: rest =>
    (parseDigits rest).bind fun n =>
      if n ≤ 2 ^ 63 - 1 then some (n : Int) else none
  | '-' :: rest =>
    (parseDigits rest).bind fun n =>
      if n ≤ 2 ^ 63 then some (-(n : Int)) else none
  | _ =>
    (parseDigits s).bind fun n =>
      if n ≤ 2 ^ 63 - 1 then some (n : Int) else none

/-- `strconv.ParseUint(s, 10, 64)` as an `Option`: no sign allowed. -/
def parseUint (s : Str) : Option Nat :=
  (parseDigits s).bind fun n =>
    if n ≤ 2 ^ 64 - 1 then some n else none

/-- `strconv.ParseBool`. -/
def parseBool (s : Str) : Option Bool :=
  if s = "1".data || s = "t".data || s = "T".data || s = "true".data ||
     s = "TRUE".data || s = "True".data then some true
  else if s = "0".data || s = "f".data || s = "F".data || s = "false".data ||
     s = "FALSE".data || s = "False".data then some false
  else none

/-! ## The splitter (`splitValidators`, src/validate.go lines 268-311) -/

/-- State produced by the scanning loop of `splitValidators`:
`bracketStart`, `bracketEnd` and the index `i` at which the scan
stopped. -/
structure ScanRes where
  bs : Nat
  be : Int
  stop : Nat
deriving DecidableEq, Repr

/-- The scanning loop of `splitValidators`: walk the string tracking
bracket depth; remember where a top-level bracket group starts and
ends; stop at a top-level `>`. -/
def scanLoop : Str → Nat → Int → Nat → Int → ScanRes
  | [], i, _, bs, be => ⟨bs, be, i⟩
  | c :: rest, i, bracket, bs, be =>
    if c = '>' && bracket = 0 then ⟨bs, be, i⟩
    else if c = '[' then
      scanLoop rest (i + 1) (bracket + 1) (if bracket = 0 then i else bs) be
    else if c = ']' then
      scanLoop rest (i + 1) (bracket - 1) bs (if bracket - 1 = 0 then (i : Int) else be)
    else scanLoop rest (i + 1) bracket bs be

/-- Go slice `s[a:b]`. -/
def sliceStr (s : Str) (a b : Nat) : Str := (s.take b).drop a

/-- `splitValidators` (src/validate.go): returns
`(keyValidators, valValidators, remainingValidators)`.  All guard
conditions of the source are mirrored literally. -/
def splitValidators (validators : Str) : Str × Str × Str :=
  let r := scanLoop validators 0 0 0 (-1)
  let n := validators.length
  let val1 := if r.bs ≤ n then sliceStr validators 0 r.bs else []
  let val :=
    if r.be + 1 ≤ (n : Int) then
      (if val1 ≠ [] then val1 ++ [' '] else val1) ++
        sliceStr validators (r.be + 1).toNat r.stop
    else val1
  let key :=
    if r.bs + 1 ≤ n ∧ 0 ≤ r.be ∧ (r.bs : Int) + 1 ≤ r.be then
      sliceStr validators (r.bs + 1) r.be.toNat
    else []
  let rem := if r.stop + 1 ≤ n then validators.drop (r.stop + 1) else []
  (key, val, rem)

/-! ## The rule parser (`parseValidators`, src/validate.go lines 315-343) -/

/-- The `validator` struct of src/validators.go: a rule name and its raw
parameter. -/
structure validator where
  vtype : Str
  vvalue : Str
deriving DecidableEq, Repr

/-- One `&`-entry of `parseValidators`: split on `=`; the name is the
first word-character run of the part before the first `=`; the value is
kept only when the split produced exactly two parts. -/
def parseEntry (entry : Str) : Option validator :=
  let entries := splitOnChar '=' entry
  let t := findFirstWord (entries.headD [])
  let v := if entries.length = 2 then trimRE (entries.getD 1 []) else []
  if t ≠ [] then some ⟨t, v⟩ else none

/-- `parseValidators` (src/validate.go): OR-groups separated by `|`,
AND-rules separated by `&`; empty rules and empty groups are dropped. -/
def parseValidators (s : Str) : List (List validator) :=
  ((splitOnChar '|' s).map fun entryOr =>
    (splitOnChar '&' entryOr).filterMap parseEntry).filter (· ≠ [])

/-- `parseTokens` (src/validate.go lines 346-358): split on commas, trim
space, drop empty tokens. -/
def parseTokens (s : Str) : List Str :=
  ((splitOnChar ',' s).map trimGo).filter (· ≠ [])

/-! ## The value model

`reflect.Value` is embedded as an inductive covering the kinds the
claims exercise: signed integers, unsigned integers, strings, booleans
(a kind no validator handles), pointers, slices, arrays, maps, and
structs.  Struct fields carry their name and the contents of their
`validate` tag; maps are association lists (Go's iteration order is
unspecified, so theorems about maps are proved for the orders they
mention). -/

mutual
inductive Value where
  | intV (i : Int)
  | uintV (n : Nat)
  | strV (s : Str)
  | boolV (b : Bool)
  | ptrNil
  | ptrV (v : Value)
  | sliceV (elems : ValueList)
  | arrayV (elems : ValueList)
  | mapV (entries : EntryList)
  | structV (fields : FieldList)
deriving DecidableEq, Repr

inductive ValueList where
  | nil
  | cons (v : Value) (rest : ValueList)
deriving DecidableEq, Repr

inductive EntryList where
  | nil
  | cons (k v : Value) (rest : EntryList)
deriving DecidableEq, Repr

inductive FieldList where
  | nil
  | cons (name tag : Str) (v : Value) (rest : FieldList)
deriving DecidableEq, Repr
end

def ValueList.length : ValueList → Nat
  | .nil => 0
  | .cons _ rest => 1 + rest.length

def EntryList.length : EntryList → Nat
  | .nil => 0
  | .cons _ _ rest => 1 + rest.length

/-! ## The error model (src/errors.go)

`ErrorValidation` carries the field name, the offending value, and the
validator type and value; `ErrorSyntax` is declared in src/errors.go
(field name, expression, near, comment) but no function of
src/validate.go or src/validators.go ever constructs one. -/

inductive VError where
  | valErr (fieldName : Str) (fieldValue : Value) (vtype : Str) (vvalue : Str)
  | synErr (fieldName : Str) (expression : Str) (near : Str) (comment : Str)
deriving DecidableEq, Repr

/-- Whether an error is an `ErrorSyntax`. -/
def VError.isSyn : VError → Bool
  | .synErr .. => true
  | _ => false

/-! ## The validators (src/validators.go, lines 1-454)

Each comparison validator switches on the value's kind, parses the raw
parameter in the form that kind needs, and returns `ErrorValidation`
exactly when the parameter parsed and the comparison fails; on any
parse failure or unhandled kind it returns `nil` (here `none`).
`time.Duration` and float kinds are not exercised by any claim and are
omitted from the value model. -/

def validateEq (value : Value) (name p : Str) : Option VError :=
  let e := VError.valErr name value "eq".data p
  match value with
  | .intV i => match parseInt p with
    | some tok => if i ≠ tok then some e else none
    | none => none
  | .uintV n => match parseUint p with
    | some tok => if n ≠ tok then some e else none
    | none => none
  | .strV s => match parseInt p with
    | some tok => if (s.length : Int) ≠ tok then some e else none
    | none => none
  | .mapV es => match parseInt p with
    | some tok => if (es.length : Int) ≠ tok then some e else none
    | none => none
  | .sliceV es => match parseInt p with
    | some tok => if (es.length : Int) ≠ tok then some e else none
    | none => none
  | .arrayV es => match parseInt p with
    | some tok => if (es.length : Int) ≠ tok then some e else none
    | none => none
  | _ => none

def validateNe (value : Value) (name p : Str) : Option VError :=
  let e := VError.valErr name value "ne".data p
  match value with
  | .intV i => match parseInt p with
    | some tok => if i = tok then some e else none
    | none => none
  | .uintV n => match parseUint p with
    | some tok => if n = tok then some e else none
    | none => none
  | .strV s => match parseInt p with
    | some tok => if (s.length : Int) = tok then some e else none
    | none => none
  | .mapV es => match parseInt p with
    | some tok => if (es.length : Int) = tok then some e else none
    | none => none
  | .sliceV es => match parseInt p with
    | some tok => if (es.length : Int) = tok then some e else none
    | none => none
  | .arrayV es => match parseInt p with
    | some tok => if (es.length : Int) = tok then some e else none
    | none => none
  | _ => none

def validateGt (value : Value) (name p : Str) : Option VError :=
  let e := VError.valErr name value "gt".data p
  match value with
  | .intV i => match parseInt p with
    | some tok => if i ≤ tok then some e else none
    | none => none
  | .uintV n => match parseUint p with
    | some tok => if n ≤ tok then some e else none
    | none => none
  | .strV s => match parseInt p with
    | some tok => if (s.length : Int) ≤ tok then some e else none
    | none => none
  | .mapV es => match parseInt p with
    | some tok => if (es.length : Int) ≤ tok then some e else none
    | none => none
  | .sliceV es => match parseInt p with
    | some tok => if (es.length : Int) ≤ tok then some e else none
    | none => none
  | .arrayV es => match parseInt p with
    | some tok => if (es.length : Int) ≤ tok then some e else none
    | none => none
  | _ => none

def validateLt (value : Value) (name p : Str) : Option VError :=
  let e := VError.valErr name value "lt".data p
  match value with
  | .intV i => match parseInt p with
    | some tok => if i ≥ tok then some e else none
    | none => none
  | .uintV n => match parseUint p with
    | some tok => if n ≥ tok then some e else none
    | none => none
  | .strV s => match parseInt p with
    | some tok => if (s.length : Int) ≥ tok then some e else none
    | none => none
  | .mapV es => match parseInt p with
    | some tok => if (es.length : Int) ≥ tok then some e else none
    | none => none
  | .sliceV es => match parseInt p with
    | some tok => if (es.length : Int) ≥ tok then some e else none
    | none => none
  | .arrayV es => match parseInt p with
    | some tok => if (es.length : Int) ≥ tok then some e else none
    | none => none
  | _ => none

def validateGte (value : Value) (name p : Str) : Option VError :=
  let e := VError.valErr name value "gte".data p
  match value with
  | .intV i => match parseInt p with
    | some tok => if i < tok then some e else none
    | none => none
  | .uintV n => match parseUint p with
    | some tok => if n < tok then some e else none
    | none => none
  | .strV s => match parseInt p with
    | some tok => if (s.length : Int) < tok then some e else none
    | none => none
  | .mapV es => match parseInt p with
    | some tok => if (es.length : Int) < tok then some e else none
    | none => none
  | .sliceV es => match parseInt p with
    | some tok => if (es.length : Int) < tok then some e else none
    | none => none
  | .arrayV es => match parseInt p with
    | some tok => if (es.length : Int) < tok then some e else none
    | none => none
  | _ => none

def validateLte (value : Value) (name p : Str) : Option VError :=
  let e := VError.valErr name value "lte".data p
  match value with
  | .intV i => match parseInt p with
    | some tok => if i > tok then some e else none
    | none => none
  | .uintV n => match parseUint p with
    | some tok => if n > tok then some e else none
    | none => none
  | .strV s => match parseInt p with
    | some tok => if (s.length : Int) > tok then some e else none
    | none => none
  | .mapV es => match parseInt p with
    | some tok => if (es.length : Int) > tok then some e else none
    | none => none
  | .sliceV es => match parseInt p with
    | some tok => if (es.length : Int) > tok then some e else none
    | none => none
  | .arrayV es => match parseInt p with
    | some tok => if (es.length : Int) > tok then some e else none
    | none => none
  | _ => none

def validateEmpty (value : Value) (name p : Str) : Option VError :=
  let e := VError.valErr name value "empty".data p
  let check : Nat → Option VError := fun len =>
    match parseBool p with
    | some isEmpty =>
      if isEmpty ∧ len > 0 then some e
      else if ¬isEmpty ∧ len = 0 then some e
      else none
    | none => none
  match value with
  | .strV s => check s.length
  | .mapV es => check es.length
  | .sliceV es => check es.length
  | .arrayV es => check es.length
  | _ => none

def validateNil (value : Value) (name p : Str) : Option VError :=
  let e := VError.valErr name value "nil".data p
  match value with
  | .ptrNil =>
    (match parseBool p with
     | some isNil => if ¬isNil then some e else none
     | none => none)
  | .ptrV _ =>
    (match parseBool p with
     | some isNil => if isNil then some e else none
     | none => none)
  | _ => none

def validateOneOf (value : Value) (name p : Str) : Option VError :=
  let e := VError.valErr name value "one_of".data p
  match value with
  | .intV i =>
    let tokens := parseTokens p
    if tokens ≠ [] then
      if (tokens.map parseInt).contains (some i) then none else some e
    else none
  | .uintV n =>
    let tokens := parseTokens p
    if tokens ≠ [] then
      if (tokens.map parseUint).contains (some n) then none else some e
    else none
  | .strV s =>
    let tokens := parseTokens p
    if tokens ≠ [] then
      if tokens.contains s then none else some e
    else none
  | _ => none

/-- `^[a-zA-Z]+$` (the `alpha` entry of src/formats.go). -/
def formatAlpha (s : Str) : Bool :=
  s ≠ [] && s.all (·.isAlpha)

/-- `^[0-9]+$`-style numeric check (the `numeric` entry of
src/formats.go, restricted to unsigned integers). -/
def formatNumeric (s : Str) : Bool :=
  s ≠ [] && s.all (·.isDigit)

/-- The format registry of src/formats.go.  Only the entries a claim
could touch are embedded; no claim depends on any individual format
function, only on the registry being consulted solely for strings. -/
def getFormatTypeMap : List (Str × (Str → Bool)) :=
  [("alpha".data, formatAlpha), ("numeric".data, formatNumeric)]

def validateFormat (value : Value) (name p : Str) : Option VError :=
  let e := VError.valErr name value "format".data p
  match value with
  | .strV s =>
    match getFormatTypeMap.lookup p with
    | some f => if f s then none else some e
    | none => none
  | _ => none

/-- `getValidatorTypeMap` (src/validators.go lines 58-71). -/
def getValidatorTypeMap : List (Str × (Value → Str → Str → Option VError)) :=
  [("eq".data, validateEq),
   ("ne".data, validateNe),
   ("gt".data, validateGt),
   ("lt".data, validateLt),
   ("gte".data, validateGte),
   ("lte".data, validateLte),
   ("empty".data, validateEmpty),
   ("nil".data, validateNil),
   ("one_of".data, validateOneOf),
   ("format".data, validateFormat)]

/-- Registry lookup `validatorTypeMap[validator.Type]`. -/
def lookupValidator (t : Str) : Option (Value → Str → Str → Option VError) :=
  getValidatorTypeMap.lookup t

/-! ## Rule-set evaluation (src/validate.go lines 196-211)

The Go loop keeps one `err` variable across both loops: a rule whose
name is not in the registry is skipped without touching `err`; a
registered rule overwrites `err` and breaks the inner loop on failure;
the outer loop breaks as soon as `err` is nil after a group. -/

/-- The inner (AND) loop: `err` is the running value of the Go `err`
variable when the group starts. -/
def runGroup (v : Value) (fn : Str) : Option VError → List validator → Option VError
  | err, [] => err
  | err, r :: rest =>
    match lookupValidator r.vtype with
    | none => runGroup v fn err rest
    | some f =>
      match f v fn r.vvalue with
      | some e => some e
      | none => runGroup v fn none rest

/-- The outer (OR) loop. -/
def runGroups (v : Value) (fn : Str) : Option VError → List (List validator) → Option VError
  | err, [] => err
  | err, g :: rest =>
    match runGroup v fn err g with
    | none => none
    | some e => runGroups v fn (some e) rest

/-- Instrumented variant of `runGroup` that also returns the list of
rules whose predicate was actually invoked (i.e. whose name was found
in the registry and whose function was called), in invocation order. -/
def runGroupT (v : Value) (fn : Str) : Option VError → List validator →
    Option VError × List validator
  | err, [] => (err, [])
  | err, r :: rest =>
    match lookupValidator r.vtype with
    | none => runGroupT v fn err rest
    | some f =>
      match f v fn r.vvalue with
      | some e => (some e, [r])
      | none =>
        let p := runGroupT v fn none rest
        (p.1, r :: p.2)

/-- Instrumented variant of `runGroups`. -/
def runGroupsT (v : Value) (fn : Str) : Option VError → List (List validator) →
    Option VError × List validator
  | err, [] => (err, [])
  | err, g :: rest =>
    let p := runGroupT v fn err g
    match p.1 with
    | none => (none, p.2)
    | some e =>
      let q := runGroupsT v fn (some e) rest
      (q.1, p.2 ++ q.2)

/-! ## The structural evaluator (`validateField`, src/validate.go lines 176-244)

The `CustomValidator` hook (lines 187-194) is not modelled: no value
type involved in any claim implements it, and the hook only precedes
rule evaluation for values that do. -/

mutual
/-- `validateField`: split the expression, parse the value-expression,
run the rule set, then dive one level into structs, maps,
slices/arrays, and non-nil pointers. -/
def validateField (value : Value) (fieldName : Str) (validators : Str) : Option VError :=
  let split := splitValidators validators
  let keyValidators := split.1
  let valValidators := split.2.1
  let remaining := split.2.2
  let validatorsOr := parseValidators valValidators
  match runGroups value fieldName none validatorsOr with
  | some e => some e
  | none =>
    match value with
    | .structV fields => validateStructFields fields
    | .mapV entries => validateMapEntries entries fieldName keyValidators remaining
    | .sliceV elems => validateElems elems fieldName remaining
    | .arrayV elems => validateElems elems fieldName remaining
    | .ptrV inner => validateField inner fieldName remaining
    | _ => none

/-- `validateStruct` (src/validate.go lines 247-260): each field is
validated against its own tag under its own name. -/
def validateStructFields : FieldList → Option VError
  | .nil => none
  | .cons name tag v rest =>
    match validateField v name tag with
    | some e => some e
    | none => validateStructFields rest

/-- The map arm of the dive switch (src/validate.go lines 220-228): for
each entry, first the key against the key validators, then the value
against the remaining validators; first error wins. -/
def validateMapEntries (entries : EntryList) (fieldName keyValidators remaining : Str) :
    Option VError :=
  match entries with
  | .nil => none
  | .cons k v rest =>
    match validateField k fieldName keyValidators with
    | some e => some e
    | none =>
      match validateField v fieldName remaining with
      | some e => some e
      | none => validateMapEntries rest fieldName keyValidators remaining

/-- The slice/array arm of the dive switch (src/validate.go lines
229-234). -/
def validateElems (elems : ValueList) (fieldName remaining : Str) : Option VError :=
  match elems with
  | .nil => none
  | .cons v rest =>
    match validateField v fieldName remaining with
    | some e => some e
    | none => validateElems rest fieldName remaining
end

/-- `Validate` (src/validate.go lines 169-173): the public entry point
passes the value straight to `validateField` with an empty field name
and an empty expression — there is no shape check. -/
def Validate (element : Value) : Option VError :=
  validateField element [] []

/-- The values the dive switch of `validateField` recurses into: struct
field values, map keys and values, slice/array elements, and the
pointee of a non-nil pointer. -/
def fieldValues : FieldList → List Value
  | .nil => []
  | .cons _ _ v rest => v :: fieldValues rest

def entryValues : EntryList → List Value
  | .nil => []
  | .cons k v rest => k :: v :: entryValues rest

def elemValues : ValueList → List Value
  | .nil => []
  | .cons v rest => v :: elemValues rest

def evalChildren : Value → List Value
  | .structV fs => fieldValues fs
  | .mapV es => entryValues es
  | .sliceV es => elemValues es
  | .arrayV es => elemValues es
  | .ptrV v => [v]
  | _ => []

/-- Kinds handled by the six comparison validators (`eq`, `ne`, `gt`,
`lt`, `gte`, `lte`): the case labels of their switch statements. -/
def cmpKinds : Value → Bool
  | .intV _ | .uintV _ | .strV _ | .mapV _ | .sliceV _ | .arrayV _ => true
  | _ => false

/-- Kinds handled by `validateEmpty`. -/
def emptyKinds : Value → Bool
  | .strV _ | .mapV _ | .sliceV _ | .arrayV _ => true
  | _ => false

/-- Kinds handled by `validateNil` (the `reflect.Ptr` case). -/
def nilKinds : Value → Bool
  | .ptrNil | .ptrV _ => true
  | _ => false

/-- Kinds handled by `validateOneOf`. -/
def oneOfKinds : Value → Bool
  | .intV _ | .uintV _ | .strV _ => true
  | _ => false

/-- Kinds handled by `validateFormat` (strings only). -/
def formatKinds : Value → Bool
  | .strV _ => true
  | _ => false

/-- Whether the validator registered under name `t` handles the kind of
value `v`, read off the case labels of src/validators.go. -/
def handlesValue (t : Str) (v : Value) : Bool :=
  if t = "eq".data ∨ t = "ne".data ∨ t = "gt".data ∨ t = "lt".data ∨
     t = "gte".data ∨ t = "lte".data then cmpKinds v
  else if t = "empty".data then emptyKinds v
  else if t = "nil".data then nilKinds v
  else if t = "one_of".data then oneOfKinds v
  else if t = "format".data then formatKinds v
  else false

/-- The valueExpr formula asserted by the specification (claim C8),
stated in the spec's own words: the substring before the bracket group
and the substring after it, joined by a single space if and only if
BOTH are non-empty.  To be compared with what `splitValidators`
actually computes. -/
def valueExprSpec (expr : Str) : Str :=
  let r := scanLoop expr 0 0 0 (-1)
  let first := sliceStr expr 0 r.bs
  let second := sliceStr expr (r.be + 1).toNat r.stop
  first ++ (if first ≠ [] ∧ second ≠ [] then [' '] else []) ++ second

/-! ## Helper lemmas -/

theorem splitOnChar_ne_nil (sep : Char) (l : Str) : splitOnChar sep l ≠ [] := by
  induction l with
  | nil => simp [splitOnChar]
  | cons c rest ih =>
    simp only [splitOnChar]
    cases h : splitOnChar sep rest with
    | nil => simp
    | cons p ps =>
      by_cases hc : c = sep <;> simp [hc]

theorem splitOnChar_mem (sep : Char) (l : Str) :
    ∀ p ∈ splitOnChar sep l, ∀ c ∈ p, c ∈ l := by
  induction l with
  | nil =>
    intro p hp c hc
    simp [splitOnChar] at hp
    subst hp
    simp at hc
  | cons x rest ih =>
    intro p hp c hc
    simp only [splitOnChar] at hp
    cases h : splitOnChar sep rest with
    | nil => exact absurd h (splitOnChar_ne_nil sep rest)
    | cons q qs =>
      rw [h] at hp
      by_cases hx : x = sep
      · simp [hx] at hp
        rcases hp with hp | hp
        · subst hp; simp at hc
        · have : c ∈ rest := ih p (by rw [h]; exact List.mem_cons.mpr hp) c hc
          simp [this]
      · simp [hx] at hp
        rcases hp with hp | hp
        · subst hp
          rcases List.mem_cons.mp hc with rfl | hc2
          · simp
          · have : c ∈ rest := ih q (by rw [h]; exact List.mem_cons_self q qs) c hc2
            simp [this]
        · have : c ∈ rest := ih p (by rw [h]; exact List.mem_cons_of_mem q hp) c hc
          simp [this]

theorem findFirstWord_eq_nil {s : Str} (h : ∀ c ∈ s, isWordChar c = false) :
    findFirstWord s = [] := by
  induction s with
  | nil => rfl
  | cons c rest ih =>
    simp only [findFirstWord]
    rw [h c (by simp)]
    simp
    exact ih fun c hc => h c (by simp [hc])

theorem parseEntry_eq_none {entry : Str} (h : ∀ c ∈ entry, isWordChar c = false) :
    parseEntry entry = none := by
  have hhead : ∀ c ∈ (splitOnChar '=' entry).headD [], isWordChar c = false := by
    intro c hc
    cases hsp : splitOnChar '=' entry with
    | nil => exact absurd hsp (splitOnChar_ne_nil '=' entry)
    | cons a as =>
      rw [hsp] at hc
      simp at hc
      exact h c (splitOnChar_mem '=' entry a (by rw [hsp]; exact List.mem_cons_self a as) c hc)
  have : findFirstWord ((splitOnChar '=' entry).headD []) = [] := findFirstWord_eq_nil hhead
  simp only [parseEntry]
  rw [List.headD_eq_head?] at this
  simp [this]

theorem parseValidators_of_no_word {s : Str} (h : ∀ c ∈ s, isWordChar c = false) :
    parseValidators s = [] := by
  unfold parseValidators
  rw [List.filter_eq_nil_iff]
  intro g hg
  simp only [List.mem_map] at hg
  obtain ⟨entryOr, hor, rfl⟩ := hg
  have : ∀ entry ∈ splitOnChar '&' entryOr, parseEntry entry = none := by
    intro entry hent
    apply parseEntry_eq_none
    intro c hc
    exact h c (splitOnChar_mem '|' s entryOr hor c
      (splitOnChar_mem '&' entryOr entry hent c hc))
  simp [List.filterMap_eq_nil_iff.mpr this]

theorem scanLoop_bounds : ∀ (l : Str) (i : Nat) (bracket : Int) (bs : Nat) (be : Int),
    bs ≤ i → be < (i : Int) →
    (scanLoop l i bracket bs be).bs ≤ (scanLoop l i bracket bs be).stop ∧
    (scanLoop l i bracket bs be).be < ((scanLoop l i bracket bs be).stop : Int) ∧
    i ≤ (scanLoop l i bracket bs be).stop ∧
    (scanLoop l i bracket bs be).stop ≤ i + l.length := by
  intro l
  induction l with
  | nil =>
    intro i bracket bs be h1 h2
    simp [scanLoop]
    omega
  | cons c rest ih =>
    intro i bracket bs be h1 h2
    simp only [scanLoop]
    by_cases hgt : (c = '>' && bracket = 0) = true
    · rw [if_pos hgt]
      simp only [List.length_cons]
      refine ⟨h1, h2, le_refl i, by omega⟩
    · rw [if_neg hgt]
      by_cases hob : c = '['
      · rw [if_pos hob]
        have := ih (i+1) (bracket+1) (if bracket = 0 then i else bs) be
          (by split <;> omega) (by push_cast; omega)
        simp only [List.length_cons]
        refine ⟨this.1, this.2.1, by omega, by omega⟩
      · rw [if_neg hob]
        by_cases hcb : c = ']'
        · rw [if_pos hcb]
          have := ih (i+1) (bracket-1) bs (if bracket - 1 = 0 then (i:Int) else be)
            (by omega) (by split <;> [skip; skip] <;> push_cast <;> omega)
          simp only [List.length_cons]
          refine ⟨this.1, this.2.1, by omega, by omega⟩
        · rw [if_neg hcb]
          have := ih (i+1) bracket bs be (by omega) (by push_cast; omega)
          simp only [List.length_cons]
          refine ⟨this.1, this.2.1, by omega, by omega⟩

theorem runGroupT_fst (v : Value) (fn : Str) :
    ∀ (err : Option VError) (g : List validator),
    (runGroupT v fn err g).1 = runGroup v fn err g := by
  intro err g
  induction g generalizing err with
  | nil => rfl
  | cons r rest ih =>
    cases h : lookupValidator r.vtype with
    | none => simp [runGroupT, runGroup, h, ih err]
    | some f =>
      cases he : f v fn r.vvalue with
      | none => simp [runGroupT, runGroup, h, he, ih none]
      | some e => simp [runGroupT, runGroup, h, he]

theorem runGroupsT_fst (v : Value) (fn : Str) :
    ∀ (err : Option VError) (gs : List (List validator)),
    (runGroupsT v fn err gs).1 = runGroups v fn err gs := by
  intro err gs
  induction gs generalizing err with
  | nil => rfl
  | cons g rest ih =>
    cases h : runGroup v fn err g with
    | none => simp [runGroupsT, runGroups, runGroupT_fst, h]
    | some e => simp [runGroupsT, runGroups, runGroupT_fst, h, ih (some e)]

theorem fieldValues_sizeOf : ∀ (fs : FieldList), ∀ c ∈ fieldValues fs, sizeOf c < sizeOf fs
  | .nil, c, hc => by simp [fieldValues] at hc
  | .cons name tag v rest, c, hc => by
    simp only [fieldValues, List.mem_cons] at hc
    rcases hc with rfl | hc
    · simp only [FieldList.cons.sizeOf_spec]; omega
    · have := fieldValues_sizeOf rest c hc
      simp only [FieldList.cons.sizeOf_spec]; omega

theorem entryValues_sizeOf : ∀ (es : EntryList), ∀ c ∈ entryValues es, sizeOf c < sizeOf es
  | .nil, c, hc => by simp [entryValues] at hc
  | .cons k v rest, c, hc => by
    simp only [entryValues, List.mem_cons] at hc
    rcases hc with rfl | hc
    · simp only [EntryList.cons.sizeOf_spec]; omega
    · rcases hc with rfl | hc
      · simp only [EntryList.cons.sizeOf_spec]; omega
      · have := entryValues_sizeOf rest c hc
        simp only [EntryList.cons.sizeOf_spec]; omega

theorem elemValues_sizeOf : ∀ (es : ValueList), ∀ c ∈ elemValues es, sizeOf c < sizeOf es
  | .nil, c, hc => by simp [elemValues] at hc
  | .cons v rest, c, hc => by
    simp only [elemValues, List.mem_cons] at hc
    rcases hc with rfl | hc
    · simp only [ValueList.cons.sizeOf_spec]; omega
    · have := elemValues_sizeOf rest c hc
      simp only [ValueList.cons.sizeOf_spec]; omega

theorem validateField_intV (i : Int) (fn ex : Str) :
    validateField (Value.intV i) fn ex =
      match runGroups (Value.intV i) fn none (parseValidators (splitValidators ex).2.1) with
      | some e => some e
      | none => none := by
  cases hr : runGroups (Value.intV i) fn none (parseValidators (splitValidators ex).2.1) with
  | none => simp only [validateField, hr]
  | some e => simp only [validateField, hr]

theorem validateField_intV_gte_bracket : ∀ i : Int,
    validateField (Value.intV i) [] "[gte=0".data =
      if i < 0 then some (VError.valErr [] (Value.intV i) "gte".data "0".data) else none := by
  intro i
  rw [validateField_intV]
  rw [show (splitValidators "[gte=0".data) = ([], "[gte=0".data, []) from by decide]
  rw [show parseValidators ("[gte=0".data) = [[⟨"gte".data, "0".data⟩]] from by decide]
  have hlk : lookupValidator "gte".data = some validateGte := rfl
  have key : validateGte (Value.intV i) [] "0".data =
      if i < 0 then some (VError.valErr [] (Value.intV i) "gte".data "0".data) else none := rfl
  by_cases h : i < 0
  · rw [if_pos h] at key ⊢
    simp [runGroups, runGroup, hlk, key]
  · rw [if_neg h] at key ⊢
    simp [runGroups, runGroup, hlk, key]

/-! ## Claims -/

/-- Claim C1, counterexample: the claim says a value that is neither a
record nor a record reference makes `Validate` return a SyntaxError
"not a record or record reference".  In the code, `Validate` performs
no shape check at all: applied to the integer 5 it returns nil (`none`),
not an error of any kind. -/
theorem claimC1_counterexample : Validate (Value.intV 5) = none := by decide

/-- Claim C1, amended: `Validate` accepts every top-level shape.  A
non-record scalar (any integer, string, or boolean) yields Ok under the
empty expression; a record value and a record reference are accepted;
and a container at top level is validated recursively, exactly as the
repository's own `TestBasic` expects (here: a slice whose struct
element fails its field's `gte=0` tag produces that field's
ValidationError).  No "not a record" SyntaxError exists in the code. -/
theorem claimC1_amended :
    (∀ n : Int, Validate (Value.intV n) = none) ∧
    (∀ s : Str, Validate (Value.strV s) = none) ∧
    (∀ b : Bool, Validate (Value.boolV b) = none) ∧
    Validate (Value.structV .nil) = none ∧
    Validate (Value.ptrV (Value.structV .nil)) = none ∧
    Validate (Value.sliceV (.cons
      (Value.structV (.cons "f".data "gte=0".data (Value.intV (-1)) .nil)) .nil)) =
      some (VError.valErr "f".data (Value.intV (-1)) "gte".data "0".data) :=
  ⟨fun _ => rfl, fun _ => rfl, fun _ => rfl, rfl, rfl, by decide⟩

/-- Claim C2, counterexample: the claim says evaluating any value
against the malformed expression "[gte=0" yields a SyntaxError.  In the
code, evaluating the integer 5 against "[gte=0" yields nil (`none`):
the splitter never reports an error and the stray bracket is simply
swallowed by the rule parser's name regexp. -/
theorem claimC2_counterexample : validateField (Value.intV 5) [] "[gte=0".data = none := by
  decide

/-- Claim C2, amended: `splitValidators` is total and has no error
path.  On the unbalanced expression "[gte=0" it returns the plain
triple `("", "[gte=0", "")`; the rule parser then extracts the single
rule `gte=0` from the leftover bracket; consequently evaluating an
integer against "[gte=0" behaves exactly like `gte=0`: a gte
ValidationError for negative values and Ok otherwise — never a
SyntaxError. -/
theorem claimC2_amended :
    splitValidators "[gte=0".data = ([], "[gte=0".data, []) ∧
    parseValidators "[gte=0".data = [[⟨"gte".data, "0".data⟩]] ∧
    (∀ i : Int, validateField (Value.intV i) [] "[gte=0".data =
      if i < 0 then some (VError.valErr [] (Value.intV i) "gte".data "0".data) else none) :=
  ⟨by decide, by decide, validateField_intV_gte_bracket⟩

/-- Claim C3, counterexample: the claim says an unknown rule name and
an unparsable rule parameter each produce a SyntaxError.  In the code
both are silently tolerated: `gte=abc` on the integer -5 yields nil
(the parameter fails to parse, so the comparison is skipped), and
`foo=1` on the integer 7 yields nil (the name is not in the registry,
so the rule is skipped). -/
theorem claimC3_counterexample :
    validateField (Value.intV (-5)) [] "gte=abc".data = none ∧
    validateField (Value.intV 7) [] "foo=1".data = none := by
  exact ⟨by decide, by decide⟩

/-- Claim C3, amended: rules are silently skipped, never rejected.  A
rule whose name has no registry entry leaves the evaluation loop's
error variable untouched (it behaves exactly as if absent), and a
registered comparison whose rawParam cannot be parsed into an integer
returns Ok; consequently `gte=abc` and `foo=1` are satisfied by every
integer, and no SyntaxError is produced. -/
theorem claimC3_amended :
    (∀ t p : Str, lookupValidator t = none →
      ∀ (v : Value) (fn : Str) (err : Option VError) (rest : List validator),
        runGroup v fn err (⟨t, p⟩ :: rest) = runGroup v fn err rest) ∧
    (∀ (i : Int) (fn p : Str), parseInt p = none → validateGte (Value.intV i) fn p = none) ∧
    (∀ (i : Int) (fn : Str), validateField (Value.intV i) fn "gte=abc".data = none) ∧
    (∀ (i : Int) (fn : Str), validateField (Value.intV i) fn "foo=1".data = none) := by
  refine ⟨?_, ?_, fun i fn => rfl, fun i fn => rfl⟩
  · intro t p h v fn err rest
    simp [runGroup, h]
  · intro i fn p h
    simp [validateGte, h]

/-- Claim C3, witness: the amended theorem applied at the unknown name
"foo" (not in the registry) and at the unparsable parameter "abc". -/
theorem claimC3_witness :
    lookupValidator "foo".data = none ∧
    runGroup (Value.intV 3) [] none [⟨"foo".data, "1".data⟩] =
      runGroup (Value.intV 3) [] none [] ∧
    parseInt "abc".data = none ∧
    validateGte (Value.intV 2) [] "abc".data = none :=
  ⟨rfl, claimC3_amended.1 "foo".data "1".data rfl (Value.intV 3) [] none [],
   rfl, claimC3_amended.2.1 2 [] "abc".data rfl⟩

/-- Claim C4: rule-set evaluation is a short-circuit fold.  Part 1
(AND short-circuit): in a group whose first rule is registered and
fails, the loop stops there — the group returns that error and the
trace of invoked predicates is just that one rule, so in a group
`[A, B]` where `A` fails, `B`'s predicate is never invoked.  Part 2
(OR short-circuit): as soon as a group succeeds, evaluation stops with
Ok and no later group's predicate is invoked (the trace is the
succeeding group's trace alone).  Part 3: if every earlier group fails
whatever error is carried in, and the final group fails with error `e`
regardless of the carried error, the fold returns `e` — the last
AND-group's first failing error. -/
theorem claimC4_theorem :
    (∀ (v : Value) (fn : Str) (err : Option VError) (A : validator)
        (rest : List validator) (f : Value → Str → Str → Option VError) (e : VError),
        lookupValidator A.vtype = some f → f v fn A.vvalue = some e →
        runGroupT v fn err (A :: rest) = (some e, [A])) ∧
    (∀ (v : Value) (fn : Str) (err : Option VError) (g : List validator)
        (gs : List (List validator)),
        runGroup v fn err g = none →
        runGroupsT v fn err (g :: gs) = (none, (runGroupT v fn err g).2) ∧
        runGroups v fn err (g :: gs) = none) ∧
    (∀ (v : Value) (fn : Str) (gs : List (List validator)) (g : List validator) (e : VError),
        (∀ g2 ∈ gs, ∀ err : Option VError, (runGroup v fn err g2).isSome = true) →
        (∀ err : Option VError, runGroup v fn err g = some e) →
        ∀ err : Option VError, runGroups v fn err (gs ++ [g]) = some e) := by
  refine ⟨?_, ?_, ?_⟩
  · intro v fn err A rest f e hl he
    simp [runGroupT, hl, he]
  · intro v fn err g gs h
    exact ⟨by simp [runGroupsT, runGroupT_fst, h], by simp [runGroups, h]⟩
  · intro v fn gs g e
    induction gs with
    | nil =>
      intro h1 h2 err
      simp [runGroups, h2 err]
    | cons g2 gs2 ih =>
      intro h1 h2 err
      rcases Option.isSome_iff_exists.mp (h1 g2 (List.mem_cons_self g2 gs2) err) with ⟨e2, he2⟩
      rw [List.cons_append]
      simp only [runGroups]
      rw [he2]
      exact ih (fun x hx => h1 x (List.mem_cons_of_mem g2 hx)) h2 (some e2)

/-- Claim C4, witness: part 1 at the group `[gte=0, lte=10]` on the
integer -1 (gte fails, lte is never invoked); part 2 at the groups
`[[gte=0], [eq=7]]` on the integer 5 (the first group succeeds, eq is
never invoked); part 3 at `[[gte=1, lte=2]] ++ [[eq=4]]` on a sequence
of length 3 (both groups fail, the eq error of the last group is
returned). -/
theorem claimC4_witness :
    runGroupT (Value.intV (-1)) [] none
        [⟨"gte".data, "0".data⟩, ⟨"lte".data, "10".data⟩] =
      (some (VError.valErr [] (Value.intV (-1)) "gte".data "0".data),
        [⟨"gte".data, "0".data⟩]) ∧
    (runGroupsT (Value.intV 5) [] none [[⟨"gte".data, "0".data⟩], [⟨"eq".data, "7".data⟩]] =
        (none, (runGroupT (Value.intV 5) [] none [⟨"gte".data, "0".data⟩]).2) ∧
      runGroups (Value.intV 5) [] none
        [[⟨"gte".data, "0".data⟩], [⟨"eq".data, "7".data⟩]] = none) ∧
    runGroups
        (Value.sliceV (.cons (Value.intV 0) (.cons (Value.intV 0) (.cons (Value.intV 0) .nil))))
        [] none
        ([[⟨"gte".data, "1".data⟩, ⟨"lte".data, "2".data⟩]] ++ [[⟨"eq".data, "4".data⟩]]) =
      some (VError.valErr []
        (Value.sliceV (.cons (Value.intV 0) (.cons (Value.intV 0) (.cons (Value.intV 0) .nil))))
        "eq".data "4".data) :=
  ⟨claimC4_theorem.1 (Value.intV (-1)) [] none ⟨"gte".data, "0".data⟩
      [⟨"lte".data, "10".data⟩] validateGte
      (VError.valErr [] (Value.intV (-1)) "gte".data "0".data) rfl (by decide),
   claimC4_theorem.2.1 (Value.intV 5) [] none [⟨"gte".data, "0".data⟩]
      [[⟨"eq".data, "7".data⟩]] (by decide),
   claimC4_theorem.2.2
      (Value.sliceV (.cons (Value.intV 0) (.cons (Value.intV 0) (.cons (Value.intV 0) .nil))))
      [] [[⟨"gte".data, "1".data⟩, ⟨"lte".data, "2".data⟩]] [⟨"eq".data, "4".data⟩]
      (VError.valErr []
        (Value.sliceV (.cons (Value.intV 0) (.cons (Value.intV 0) (.cons (Value.intV 0) .nil))))
        "eq".data "4".data)
      (by
        intro g2 hg2 err
        rw [List.mem_singleton] at hg2
        subst hg2
        rfl)
      (fun err => rfl) none⟩

/-- Claim C5: when the evaluated value is a mapping, each entry's key
is evaluated against the key expression and then its value against the
remainder expression, returning on the first error.  For the map
`{0:0, -1:5}` of ints with key expression requiring `gte=0` (the tag
"[gte=0]"), evaluation fails with a ValidationError whose offending
value is the key -1 — not a map value — in either iteration order
(Go's map order is unspecified).  The third conjunct shows the key is
checked before the value: with "[gte=0] > gte=10" on the entry
`(-1, 0)`, where both the key and the value violate their rules, the
reported error is the key's `gte=0` error. -/
theorem claimC5_theorem :
    validateField
      (Value.mapV (.cons (Value.intV 0) (Value.intV 0)
        (.cons (Value.intV (-1)) (Value.intV 5) .nil)))
      "field".data "[gte=0]".data =
      some (VError.valErr "field".data (Value.intV (-1)) "gte".data "0".data) ∧
    validateField
      (Value.mapV (.cons (Value.intV (-1)) (Value.intV 5)
        (.cons (Value.intV 0) (Value.intV 0) .nil)))
      "field".data "[gte=0]".data =
      some (VError.valErr "field".data (Value.intV (-1)) "gte".data "0".data) ∧
    validateField
      (Value.mapV (.cons (Value.intV (-1)) (Value.intV 0) .nil))
      "field".data "[gte=0] > gte=10".data =
      some (VError.valErr "field".data (Value.intV (-1)) "gte".data "0".data) :=
  ⟨by decide, by decide, by decide⟩

/-- Claim C6, counterexample: the claim says "gte=1 & lte=2 | eq=4" on
a sequence of length 3 returns Ok with the first OR-group satisfied.
In fact the first group fails (a length of 3 violates `lte=2`) and so
does the second (3 ≠ 4), so evaluation returns the last group's eq
ValidationError, not Ok. -/
theorem claimC6_counterexample :
    validateField
      (Value.sliceV (.cons (Value.intV 0) (.cons (Value.intV 0) (.cons (Value.intV 0) .nil))))
      [] "gte=1 & lte=2 | eq=4".data =
      some (VError.valErr []
        (Value.sliceV (.cons (Value.intV 0) (.cons (Value.intV 0) (.cons (Value.intV 0) .nil))))
        "eq".data "4".data) := by decide

/-- Claim C6, amended: "gte=1 & lte=2 | eq=4" applied to a sequence of
length 1 or 2 returns Ok with the first OR-group satisfied, and to a
sequence of length 4 with the second group satisfied; a sequence of
length 3 fails both groups and yields the eq ValidationError. -/
theorem claimC6_amended :
    validateField (Value.sliceV (.cons (Value.intV 0) .nil))
      [] "gte=1 & lte=2 | eq=4".data = none ∧
    validateField (Value.sliceV (.cons (Value.intV 0) (.cons (Value.intV 0) .nil)))
      [] "gte=1 & lte=2 | eq=4".data = none ∧
    validateField (Value.sliceV (.cons (Value.intV 0) (.cons (Value.intV 0)
      (.cons (Value.intV 0) (.cons (Value.intV 0) .nil)))))
      [] "gte=1 & lte=2 | eq=4".data = none :=
  ⟨by decide, by decide, by decide⟩

/-- Claim C7: an expression that is empty or consists entirely of
whitespace parses to an empty rule set (no OR-groups) rather than an
error, and the empty rule set is trivially satisfied: the evaluation
loop returns nil for every value. -/
theorem claimC7_theorem : ∀ s : Str, (∀ c ∈ s, isSpaceGo c = true) →
    parseValidators s = [] ∧
    ∀ (v : Value) (fn : Str), runGroups v fn none (parseValidators s) = none := by
  intro s hws
  have hnw : ∀ c ∈ s, isWordChar c = false := by
    intro c hc
    have h := hws c hc
    revert h
    simp only [isSpaceGo, Bool.or_eq_true, decide_eq_true_eq]
    rintro (((((((rfl | rfl) | rfl) | rfl) | rfl) | rfl) | rfl) | rfl) <;> decide
  have hp := parseValidators_of_no_word hnw
  exact ⟨hp, fun v fn => by rw [hp]; rfl⟩

/-- Claim C7, witness: the theorem applied to the two-space expression
and the integer 0. -/
theorem claimC7_witness :
    (∀ c ∈ ("  ".data : Str), isSpaceGo c = true) ∧
    parseValidators "  ".data = [] ∧
    runGroups (Value.intV 0) [] none (parseValidators "  ".data) = none := by
  have h7 := claimC7_theorem "  ".data (by decide)
  exact ⟨by decide, h7.1, h7.2 (Value.intV 0) []⟩

/-- Claim C8, counterexample: the claim's formula inserts the
separating space if and only if BOTH substrings are non-empty.  On the
expression "a[b]" the first substring is "a" and the second is empty,
yet the code still appends the space: the computed valueExpr is "a "
while the claimed formula gives "a". -/
theorem claimC8_counterexample :
    (splitValidators "a[b]".data).2.1 ≠ valueExprSpec "a[b]".data := by decide

/-- Claim C8, amended: the splitter's valueExpr equals
`expr[0:bracketStart]` concatenated with `expr[bracketEnd+1:i]`, with a
single separating space inserted if and only if the FIRST substring is
non-empty — so a trailing space appears whenever the first substring is
non-empty and the second is empty.  The spec's both-non-empty formula
agrees with the code exactly when the second substring is non-empty or
the first is empty. -/
theorem claimC8_amended : ∀ expr : Str,
    (splitValidators expr).2.1 =
      sliceStr expr 0 (scanLoop expr 0 0 0 (-1)).bs ++
      (if sliceStr expr 0 (scanLoop expr 0 0 0 (-1)).bs = [] then [] else [' ']) ++
      sliceStr expr ((scanLoop expr 0 0 0 (-1)).be + 1).toNat (scanLoop expr 0 0 0 (-1)).stop ∧
    ((sliceStr expr ((scanLoop expr 0 0 0 (-1)).be + 1).toNat (scanLoop expr 0 0 0 (-1)).stop ≠ [] ∨
      sliceStr expr 0 (scanLoop expr 0 0 0 (-1)).bs = []) →
      (splitValidators expr).2.1 = valueExprSpec expr) := by
  intro expr
  have hb := scanLoop_bounds expr 0 0 0 (-1) (le_refl 0) (by norm_num)
  have g1 : (scanLoop expr 0 0 0 (-1)).bs ≤ expr.length := by
    have := hb.1
    have := hb.2.2.2
    omega
  have g2 : (scanLoop expr 0 0 0 (-1)).be + 1 ≤ (expr.length : Int) := by
    have := hb.2.1
    have := hb.2.2.2
    omega
  have main : (splitValidators expr).2.1 =
      sliceStr expr 0 (scanLoop expr 0 0 0 (-1)).bs ++
      (if sliceStr expr 0 (scanLoop expr 0 0 0 (-1)).bs = [] then [] else [' ']) ++
      sliceStr expr ((scanLoop expr 0 0 0 (-1)).be + 1).toNat (scanLoop expr 0 0 0 (-1)).stop := by
    simp only [splitValidators, if_pos g1, if_pos g2]
    by_cases hf : sliceStr expr 0 (scanLoop expr 0 0 0 (-1)).bs = []
    · simp [hf]
    · simp [hf]
  refine ⟨main, fun h => ?_⟩
  rw [main]
  unfold valueExprSpec
  by_cases hf : sliceStr expr 0 (scanLoop expr 0 0 0 (-1)).bs = []
  · simp [hf]
  · have hs : sliceStr expr ((scanLoop expr 0 0 0 (-1)).be + 1).toNat
        (scanLoop expr 0 0 0 (-1)).stop ≠ [] := by
      rcases h with h | h
      · exact h
      · exact absurd h hf
    simp [hf, hs]

/-- Claim C8, witness: on "a[b]c" both substrings are non-empty, the
side condition of the amended theorem holds, and the code's valueExpr
("a c") coincides with the spec's formula. -/
theorem claimC8_witness :
    (sliceStr "a[b]c".data ((scanLoop "a[b]c".data 0 0 0 (-1)).be + 1).toNat
        (scanLoop "a[b]c".data 0 0 0 (-1)).stop ≠ [] ∨
      sliceStr "a[b]c".data 0 (scanLoop "a[b]c".data 0 0 0 (-1)).bs = []) ∧
    (splitValidators "a[b]c".data).2.1 = valueExprSpec "a[b]c".data :=
  ⟨by decide, (claimC8_amended "a[b]c".data).2 (by decide)⟩

/-- Claim C9: evaluation terminates on acyclic values because every
recursive call of the evaluator is on a structurally strictly smaller
value: each child the dive switch recurses into (a struct field value,
a map key or value, a sequence element, or the pointee of a non-nil
pointer) has strictly smaller size than the value itself.  (In this
embedding `validateField` is accepted by structural recursion over
exactly these children, which is the machine-checked form of the same
fact.) -/
theorem claimC9_theorem : ∀ (v c : Value), c ∈ evalChildren v → sizeOf c < sizeOf v := by
  intro v c hc
  cases v with
  | intV i => simp [evalChildren] at hc
  | uintV n => simp [evalChildren] at hc
  | strV s => simp [evalChildren] at hc
  | boolV b => simp [evalChildren] at hc
  | ptrNil => simp [evalChildren] at hc
  | ptrV v2 =>
    simp [evalChildren] at hc
    subst hc
    simp only [Value.ptrV.sizeOf_spec]
    omega
  | sliceV es =>
    have h1 := elemValues_sizeOf es c (by simpa [evalChildren] using hc)
    simp only [Value.sliceV.sizeOf_spec]
    omega
  | arrayV es =>
    have h1 := elemValues_sizeOf es c (by simpa [evalChildren] using hc)
    simp only [Value.arrayV.sizeOf_spec]
    omega
  | mapV es =>
    have h1 := entryValues_sizeOf es c (by simpa [evalChildren] using hc)
    simp only [Value.mapV.sizeOf_spec]
    omega
  | structV fs =>
    have h1 := fieldValues_sizeOf fs c (by simpa [evalChildren] using hc)
    simp only [Value.structV.sizeOf_spec]
    omega

/-- Claim C9, witness: the theorem applied to a pointer and its
pointee. -/
theorem claimC9_witness :
    Value.intV 0 ∈ evalChildren (Value.ptrV (Value.intV 0)) ∧
    sizeOf (Value.intV 0) < sizeOf (Value.ptrV (Value.intV 0)) :=
  ⟨by decide, claimC9_theorem _ _ (by decide)⟩

/-- Claim C10: every registered validator applied to a value whose
kind its switch statement does not handle is a no-op returning Ok,
regardless of the parameter — e.g. nil on any non-pointer, empty on
any integer, format on any non-string. -/
theorem claimC10_theorem : ∀ (t : Str) (f : Value → Str → Str → Option VError),
    lookupValidator t = some f →
    ∀ (v : Value), handlesValue t v = false → ∀ (fn p : Str), f v fn p = none := by
  intro t f hl v hk fn p
  by_cases h1 : t = "eq".data
  · subst h1
    have hl2 : some validateEq = some f := hl
    injection hl2 with h
    subst h
    have hk2 : cmpKinds v = false := hk
    cases v <;> first | rfl | exact Bool.noConfusion hk2
  by_cases h2 : t = "ne".data
  · subst h2
    have hl2 : some validateNe = some f := hl
    injection hl2 with h
    subst h
    have hk2 : cmpKinds v = false := hk
    cases v <;> first | rfl | exact Bool.noConfusion hk2
  by_cases h3 : t = "gt".data
  · subst h3
    have hl2 : some validateGt = some f := hl
    injection hl2 with h
    subst h
    have hk2 : cmpKinds v = false := hk
    cases v <;> first | rfl | exact Bool.noConfusion hk2
  by_cases h4 : t = "lt".data
  · subst h4
    have hl2 : some validateLt = some f := hl
    injection hl2 with h
    subst h
    have hk2 : cmpKinds v = false := hk
    cases v <;> first | rfl | exact Bool.noConfusion hk2
  by_cases h5 : t = "gte".data
  · subst h5
    have hl2 : some validateGte = some f := hl
    injection hl2 with h
    subst h
    have hk2 : cmpKinds v = false := hk
    cases v <;> first | rfl | exact Bool.noConfusion hk2
  by_cases h6 : t = "lte".data
  · subst h6
    have hl2 : some validateLte = some f := hl
    injection hl2 with h
    subst h
    have hk2 : cmpKinds v = false := hk
    cases v <;> first | rfl | exact Bool.noConfusion hk2
  by_cases h7 : t = "empty".data
  · subst h7
    have hl2 : some validateEmpty = some f := hl
    injection hl2 with h
    subst h
    have hk2 : emptyKinds v = false := hk
    cases v <;> first | rfl | exact Bool.noConfusion hk2
  by_cases h8 : t = "nil".data
  · subst h8
    have hl2 : some validateNil = some f := hl
    injection hl2 with h
    subst h
    have hk2 : nilKinds v = false := hk
    cases v <;> first | rfl | exact Bool.noConfusion hk2
  by_cases h9 : t = "one_of".data
  · subst h9
    have hl2 : some validateOneOf = some f := hl
    injection hl2 with h
    subst h
    have hk2 : oneOfKinds v = false := hk
    cases v <;> first | rfl | exact Bool.noConfusion hk2
  by_cases h10 : t = "format".data
  · subst h10
    have hl2 : some validateFormat = some f := hl
    injection hl2 with h
    subst h
    have hk2 : formatKinds v = false := hk
    cases v <;> first | rfl | exact Bool.noConfusion hk2
  · exfalso
    have b1 : (t == ['e','q']) = false := beq_eq_false_iff_ne.mpr h1
    have b2 : (t == ['n','e']) = false := beq_eq_false_iff_ne.mpr h2
    have b3 : (t == ['g','t']) = false := beq_eq_false_iff_ne.mpr h3
    have b4 : (t == ['l','t']) = false := beq_eq_false_iff_ne.mpr h4
    have b5 : (t == ['g','t','e']) = false := beq_eq_false_iff_ne.mpr h5
    have b6 : (t == ['l','t','e']) = false := beq_eq_false_iff_ne.mpr h6
    have b7 : (t == ['e','m','p','t','y']) = false := beq_eq_false_iff_ne.mpr h7
    have b8 : (t == ['n','i','l']) = false := beq_eq_false_iff_ne.mpr h8
    have b9 : (t == ['o','n','e','_','o','f']) = false := beq_eq_false_iff_ne.mpr h9
    have b10 : (t == ['f','o','r','m','a','t']) = false := beq_eq_false_iff_ne.mpr h10
    simp [lookupValidator, getValidatorTypeMap, List.lookup,
      b1, b2, b3, b4, b5, b6, b7, b8, b9, b10] at hl

/-- Claim C10, witness: the theorem applied to nil on an integer, empty
on an integer, and format on a boolean. -/
theorem claimC10_witness :
    lookupValidator "nil".data = some validateNil ∧
    validateNil (Value.intV 7) [] "false".data = none ∧
    lookupValidator "empty".data = some validateEmpty ∧
    validateEmpty (Value.intV 7) [] "true".data = none ∧
    lookupValidator "format".data = some validateFormat ∧
    validateFormat (Value.boolV true) [] "alpha".data = none :=
  ⟨rfl, claimC10_theorem "nil".data validateNil rfl (Value.intV 7) (by decide) [] "false".data,
   rfl, claimC10_theorem "empty".data validateEmpty rfl (Value.intV 7) (by decide) [] "true".data,
   rfl, claimC10_theorem "format".data validateFormat rfl (Value.boolV true) (by decide) []
     "alpha".data⟩
